import Mathlib

/-!
Verification of the content-generation pipeline of the kalshi-news
repository (src/cache.py, src/scheduler.py, src/article_generator.py,
src/kalshi_client.py, src/config.py).

Shallow embedding conventions:
* Python dict records for articles become the structure `Article`; optional /
  missing keys become `Option` fields.
* Machine integers and Python floats appearing in the scorer are modelled as
  rationals (ℚ); timestamps are modelled as rational seconds, and ISO-8601
  parsing of `close_time` strings is modelled by storing the already-parsed
  value as `Option ℚ` (`none` covers a missing key and an unparseable string,
  which the source treats alike: both skip the branch).
* The wall clock read by `datetime.utcnow()` is passed in explicitly: the
  hour bucket string used by `ArticleGenerator._generate_article_id` is a
  parameter `hour`, held fixed within one cycle (cycles run in minutes).
* `hashlib.md5(..).hexdigest()[:12]` is implemented bit-faithfully below
  (`md5hex`), for ASCII inputs (tickers and hour stamps are ASCII, so the
  UTF-8 byte sequence is the code-point sequence).
-/

set_option maxRecDepth 4000

namespace KalshiNews

/-! ### MD5 (RFC 1321), needed for `ArticleGenerator._generate_article_id` -/

/-- 32-bit truncation. -/
def m32 (x : Nat) : Nat := x % 4294967296

/-- Left-rotation of a 32-bit word. -/
def rotl32 (x n : Nat) : Nat := m32 ((x <<< n) ||| (x >>> (32 - n)))

/-- Bitwise complement on 32 bits. -/
def not32 (x : Nat) : Nat := 4294967295 ^^^ x

/-- The 64 MD5 sine-derived constants. -/
def md5K : List Nat :=
  [0xd76aa478, 0xe8c7b756, 0x242070db, 0xc1bdceee,
   0xf57c0faf, 0x4787c62a, 0xa8304613, 0xfd469501,
   0x698098d8, 0x8b44f7af, 0xffff5bb1, 0x895cd7be,
   0x6b901122, 0xfd987193, 0xa679438e, 0x49b40821,
   0xf61e2562, 0xc040b340, 0x265e5a51, 0xe9b6c7aa,
   0xd62f105d, 0x02441453, 0xd8a1e681, 0xe7d3fbc8,
   0x21e1cde6, 0xc33707d6, 0xf4d50d87, 0x455a14ed,
   0xa9e3e905, 0xfcefa3f8, 0x676f02d9, 0x8d2a4c8a,
   0xfffa3942, 0x8771f681, 0x6d9d6122, 0xfde5380c,
   0xa4beea44, 0x4bdecfa9, 0xf6bb4b60, 0xbebfbc70,
   0x289b7ec6, 0xeaa127fa, 0xd4ef3085, 0x04881d05,
   0xd9d4d039, 0xe6db99e5, 0x1fa27cf8, 0xc4ac5665,
   0xf4292244, 0x432aff97, 0xab9423a7, 0xfc93a039,
   0x655b59c3, 0x8f0ccc92, 0xffeff47d, 0x85845dd1,
   0x6fa87e4f, 0xfe2ce6e0, 0xa3014314, 0x4e0811a1,
   0xf7537e82, 0xbd3af235, 0x2ad7d2bb, 0xeb86d391]

/-- The 64 per-round left-rotation amounts. -/
def md5S : List Nat :=
  [7, 12, 17, 22, 7, 12, 17, 22, 7, 12, 17, 22, 7, 12, 17, 22,
   5, 9, 14, 20, 5, 9, 14, 20, 5, 9, 14, 20, 5, 9, 14, 20,
   4, 11, 16, 23, 4, 11, 16, 23, 4, 11, 16, 23, 4, 11, 16, 23,
   6, 10, 15, 21, 6, 10, 15, 21, 6, 10, 15, 21, 6, 10, 15, 21]

/-- One MD5 round: given the round index, the 16 message words and the
running (A,B,C,D) state, produce the next state. -/
def md5Round (msg : List Nat) (st : Nat × Nat × Nat × Nat) (i : Nat) :
    Nat × Nat × Nat × Nat :=
  let a := st.1; let b := st.2.1; let c := st.2.2.1; let d := st.2.2.2
  let fg : Nat × Nat :=
    if i < 16 then ((b &&& c) ||| (not32 b &&& d), i)
    else if i < 32 then ((d &&& b) ||| (not32 d &&& c), (5 * i + 1) % 16)
    else if i < 48 then (b ^^^ c ^^^ d, (3 * i + 5) % 16)
    else (c ^^^ (b ||| not32 d), (7 * i) % 16)
  let f := m32 (fg.1 + a + md5K.getD i 0 + msg.getD fg.2 0)
  (d, m32 (b + rotl32 f (md5S.getD i 0)), b, c)

/-- Decode a 64-byte chunk into 16 little-endian 32-bit words. -/
def md5Words (chunk : List Nat) : List Nat :=
  (List.range 16).map fun j =>
    chunk.getD (4 * j) 0 + 256 * chunk.getD (4 * j + 1) 0 +
    65536 * chunk.getD (4 * j + 2) 0 + 16777216 * chunk.getD (4 * j + 3) 0

/-- Process one 64-byte chunk, updating the four state words. -/
def md5Chunk (st : Nat × Nat × Nat × Nat) (chunk : List Nat) :
    Nat × Nat × Nat × Nat :=
  let w := md5Words chunk
  let r := (List.range 64).foldl (md5Round w) st
  (m32 (st.1 + r.1), m32 (st.2.1 + r.2.1), m32 (st.2.2.1 + r.2.2.1),
   m32 (st.2.2.2 + r.2.2.2))

/-- Process a padded message, 64 bytes at a time; the first argument is the
number of 64-byte chunks. -/
def md5Chunks : Nat → Nat × Nat × Nat × Nat → List Nat →
    Nat × Nat × Nat × Nat
  | 0, st, _ => st
  | n + 1, st, l => md5Chunks n (md5Chunk st (l.take 64)) (l.drop 64)

/-- MD5 padding: append 0x80, zeros to 56 mod 64, then the 64-bit
little-endian bit length. -/
def md5Pad (msg : List Nat) : List Nat :=
  let len := msg.length
  let z := (120 - (len + 1) % 64) % 64
  msg ++ [0x80] ++ List.replicate z 0 ++
    (List.range 8).map fun i => ((8 * len) >>> (8 * i)) % 256

/-- The four output state words of MD5 on a byte sequence. -/
def md5State (msg : List Nat) : Nat × Nat × Nat × Nat :=
  let p := md5Pad msg
  md5Chunks (p.length / 64) (0x67452301, 0xefcdab89, 0x98badcfe, 0x10325476) p

/-- One lowercase hex digit. -/
def hexDigit (n : Nat) : Char :=
  if n < 10 then Char.ofNat (48 + n) else Char.ofNat (87 + n)

/-- A byte as two lowercase hex digits. -/
def byteHex (b : Nat) : List Char := [hexDigit (b / 16), hexDigit (b % 16)]

/-- A 32-bit word as 8 hex digits, little-endian byte order (as in
`hexdigest`). -/
def wordHexLE (w : Nat) : List Char :=
  byteHex (w % 256) ++ byteHex (w / 256 % 256) ++ byteHex (w / 65536 % 256) ++
    byteHex (w / 16777216 % 256)

/-- The byte sequence of an ASCII string. -/
def strBytes (s : String) : List Nat := s.data.map Char.toNat

/-- hashlib.md5(s.encode()).hexdigest() for an ASCII string s. -/
def md5hex (s : String) : String :=
  let st := md5State (strBytes s)
  ⟨wordHexLE st.1 ++ wordHexLE st.2.1 ++ wordHexLE st.2.2.1 ++
    wordHexLE st.2.2.2⟩

example : md5hex "" = "d41d8cd98f00b204e9800998ecf8427e" := by decide
example : md5hex "abc" = "900150983cd24fb0d6963f7d28e17f72" := by decide

/-- ArticleGenerator._generate_article_id: md5 of "{ticker}-{timestamp}"
truncated to 12 hex digits, where timestamp is the UTC hour bucket
strftime("%Y%m%d%H") at the moment of the call. -/
def generateArticleId (ticker timestamp : String) : String :=
  (md5hex (ticker ++ "-" ++ timestamp)).take 12

example : generateArticleId "FOO" "2025010100" = "d3a6a22f828d" := by decide
example : generateArticleId "FOO" "2025010101" = "855632905c1a" := by decide

/-! ### Data model

The persisted article record (spec §6 field set).  Python dict keys that may
be absent are `Option` fields.  In the PostgreSQL backend every field below
except `results_article_id` is a dedicated column; `results_article_id` is
the only modelled key that lands in the free-form `data` JSONB map
(cache.py builds `data` from the keys not in the 15-column list). -/
structure Article where
  id : String
  article_type : String
  title : String
  teaser : String
  content : String
  market_ticker : String
  market_title : String
  probability : Option ℚ
  outcome : Option String
  generated_at : String
  close_time : Option ℚ
  volume : ℚ
  status : String
  word_count : Nat
  original_article_id : Option String
  results_article_id : Option String
deriving DecidableEq

/-- A market/candidate dict as returned by the Kalshi client.  Numeric
fields are rationals; `close_time` is the parsed ISO timestamp in seconds
(`none` when the key is missing or the string unparseable — the source
skips the same branches in both cases). -/
structure Market where
  ticker : String
  title : String
  yes_bid : Option ℚ
  last_price : Option ℚ
  yes_price : Option ℚ
  volume : Option ℚ
  volume_24h : Option ℚ
  open_interest : Option ℚ
  close_time : Option ℚ
  result : Option String
  final_probability : Option ℚ
deriving DecidableEq

/-- The parsed successful LLM response of `_parse_article_response`: the
JSON object with title, teaser, content.  A generation failure (API
exception or JSON parse failure, both of which make the caller skip the
candidate) is modelled as `Option.none` at the call sites. -/
structure GenText where
  title : String
  teaser : String
  content : String
deriving DecidableEq

/-- Token counter: a token starts at each non-whitespace character not
already inside a token.  The flag says whether the previous character was
part of a token. -/
def countWordsGo : Bool → List Char → Nat
  | _, [] => 0
  | inWord, c :: cs =>
      if c.isWhitespace then countWordsGo false cs
      else (if inWord then 0 else 1) + countWordsGo true cs

/-- len(content.split()): the number of maximal whitespace-separated
tokens of the string. -/
def countWords (s : String) : Nat := countWordsGo false s.data

example : countWords "a  bc   d" = 3 := by decide

/-! ### Scorer (kalshi_client.py `_calculate_market_score`)

Python floats are modelled as rationals; `0.3` and `0.7` are the exact
rationals 3/10 and 7/10. -/

/-- market.get("yes_bid", 0) or market.get("last_price", 50): Python `or`
falls through on a falsy (absent or zero) yes_bid.  The same expression is
used by `enrich_market_data` for probability_pct. -/
def yesPrice (m : Market) : ℚ :=
  if m.yes_bid.getD 0 = 0 then m.last_price.getD 50 else m.yes_bid.getD 0

/-- The two-band bonus exactly as coded: +20 if 20 <= p <= 80, else +10 if
10 <= p <= 90 (both ends inclusive), else 0. -/
def bandBonus (p : ℚ) : ℚ :=
  if 20 ≤ p ∧ p ≤ 80 then 20 else if 10 ≤ p ∧ p ≤ 90 then 10 else 0

/-- KalshiClient._calculate_market_score.  `now` is the wall clock in
seconds; a missing close_time skips the decay branch, as does an
unparseable one (modelled together as `none`). -/
def calculateMarketScore (now : ℚ) (m : Market) : ℚ :=
  let base := min (m.volume.getD 0 / 1000) 50 + min (m.volume_24h.getD 0 / 100) 30
      + bandBonus (yesPrice m) + min (m.open_interest.getD 0 / 500) 20
  match m.close_time with
  | none => base
  | some ct =>
      let hoursUntilClose := (ct - now) / 3600
      if hoursUntilClose < 2 then base * (3 / 10)
      else if hoursUntilClose < 24 then base * (7 / 10)
      else base

/-- Modelled from the spec's words (§4.1, quoted by the claim): the score
formula with the claimed band bonus, whose second band is the half-open
interval 10 <= price < 90.  This is the spec-side definition compared
against `calculateMarketScore`. -/
def specBandBonus (p : ℚ) : ℚ :=
  if 20 ≤ p ∧ p ≤ 80 then 20 else if 10 ≤ p ∧ p < 90 then 10 else 0

/-- Modelled from the spec's words: time decay factor ×0.3 if <2h, ×0.7 if
<24h, else ×1 (no decay when there is no close time). -/
def specTimeDecay (now : ℚ) (closeTime : Option ℚ) : ℚ :=
  match closeTime with
  | none => 1
  | some ct =>
      if (ct - now) / 3600 < 2 then 3 / 10
      else if (ct - now) / 3600 < 24 then 7 / 10
      else 1

/-- Modelled from the spec's words: the claimed score. -/
def specScore (now : ℚ) (m : Market) : ℚ :=
  (min (m.volume.getD 0 / 1000) 50 + min (m.volume_24h.getD 0 / 100) 30
    + specBandBonus (yesPrice m) + min (m.open_interest.getD 0 / 500) 20)
    * specTimeDecay now m.close_time

/-! ### Storage backends (cache.py)

The article collection of the file backend is the list stored in
articles.json, most-recent-first; the Redis backend stores the same list
under one key.  The PostgreSQL backend's table is modelled as a list in
created_at-descending order: a plain INSERT gets the newest created_at
(front), and ON CONFLICT leaves created_at — hence the position —
unchanged. -/

/-- FileCache.add_article: drop any record with the same id, insert at the
front, truncate to max_articles = 50. -/
def fileAddArticle (article : Article) (articles : List Article) : List Article :=
  (article :: articles.filter fun a => a.id ≠ article.id).take 50

/-- RedisCache.add_article: same steps, cap literal 50. -/
def redisAddArticle (article : Article) (articles : List Article) : List Article :=
  (article :: articles.filter fun a => a.id ≠ article.id).take 50

/-- FileCache.save_articles: the articles file afterwards holds exactly the
given list. -/
def fileSaveArticles (articles : List Article) : List Article := articles

/-- FileCache.get_article_by_id / RedisCache.get_article_by_id /
first-match lookup by id. -/
def getArticleById (articleId : String) (articles : List Article) : Option Article :=
  articles.find? fun a => a.id == articleId

/-- The row produced by PostgresCache.add_article's ON CONFLICT (id) DO
UPDATE: only title, teaser, content, status and the data JSONB (here:
results_article_id) take the new values; every other column keeps the
previously stored value. -/
def pgMerge (old new : Article) : Article :=
  { old with
    title := new.title
    teaser := new.teaser
    content := new.content
    status := new.status
    results_article_id := new.results_article_id }

/-- PostgresCache.add_article on the modelled table. -/
def pgAddArticle (article : Article) (rows : List Article) : List Article :=
  if rows.any fun r => r.id = article.id then
    rows.map fun r => if r.id = article.id then pgMerge r article else r
  else article :: rows

/-- PostgresCache.get_all_articles: ORDER BY created_at DESC LIMIT 50. -/
def pgGetAllArticles (rows : List Article) : List Article := rows.take 50

/-- us.foldl upsert l: apply a sequence of upserts (oldest first) to a
collection, on the file backend. -/
def upsertAll (l : List Article) (us : List Article) : List Article :=
  us.foldl (fun s a => fileAddArticle a s) l

/-! ### Generation Invoker (article_generator.py)

The LLM call plus `_parse_article_response` is the opaque step; its joint
outcome is an `Option GenText` argument (`none`: API exception or JSON
parse failure — either way the function returns None).  `hour` is the UTC
strftime("%Y%m%d%H") bucket read inside `_generate_article_id`;
`generated_at` is modelled at the same hour granularity. -/

/-- The metadata assembly of ArticleGenerator.generate_article (lines
207-231), applied to an enriched market (enrich_market_data sets
probability_pct to the yes_bid-or-last_price value). -/
def mkArticle (hour : String) (m : Market) (g : GenText) : Article :=
  { id := generateArticleId m.ticker hour
    article_type := "analysis"
    title := g.title
    teaser := g.teaser
    content := g.content
    market_ticker := m.ticker
    market_title := m.title
    probability := some (yesPrice m)
    outcome := none
    generated_at := hour
    close_time := m.close_time
    volume := m.volume.getD 0
    status := "active"
    word_count := countWords g.content
    original_article_id := none
    results_article_id := none }

/-- ArticleGenerator.generate_article: None exactly when the LLM/parse
step failed, otherwise the assembled analysis article. -/
def generateArticle (hour : String) (m : Market) (outcome : Option GenText) :
    Option Article :=
  outcome.map fun g => mkArticle hour m g

/-- market_data.get("result", "YES" if market_data.get("yes_price", 0) > 50
else "NO"): the dict default fires only when the key is missing. -/
def resultsOutcome (md : Market) : String :=
  md.result.getD (if md.yes_price.getD 0 > 50 then "YES" else "NO")

/-- market_data.get("final_probability", market_data.get("probability_pct",
50)); raw market dicts from get_market carry no probability_pct, modelled
as the yes-price fallback chain with default 50. -/
def finalProbability (md : Market) : ℚ :=
  md.final_probability.getD 50

/-- The metadata assembly of ArticleGenerator.generate_results_article
(lines 271-291).  The id appends "-results" to the id scheme applied at
the results-generation hour, not to the original article's id. -/
def mkResultsArticle (hour : String) (md : Market) (g : GenText)
    (orig : Option Article) : Article :=
  { id := generateArticleId md.ticker hour ++ "-results"
    article_type := "results"
    title := g.title
    teaser := g.teaser
    content := g.content
    market_ticker := md.ticker
    market_title := md.title
    probability := some (finalProbability md)
    outcome := some (resultsOutcome md)
    generated_at := hour
    close_time := md.close_time
    volume := md.volume.getD 0
    status := "resolved"
    word_count := countWords g.content
    original_article_id := orig.map (·.id)
    results_article_id := none }

/-- ArticleGenerator.generate_results_article. -/
def generateResultsArticle (hour : String) (md : Market)
    (orig : Option Article) (outcome : Option GenText) : Option Article :=
  outcome.map fun g => mkResultsArticle hour md g orig

/-! ### Orchestrator (scheduler.py), file backend

The cycles act on the file backend's articles list (config default
CACHE_TYPE = "file").  External collaborators are arguments:
`genOutcome m` is the enrich-plus-generate step for one candidate (`none`
covers the whole caught per-candidate exception path), `getMarket` is
kalshi.get_market, `genResults md a` the results LLM step. -/

/-- The ticker set {a["market_ticker"] for a in articles if
a["article_type"] == "analysis"} built once at the start of
generate_articles_job; any status counts. -/
def existingAnalysisTickers (articles : List Article) : List String :=
  (articles.filter fun a => a.article_type = "analysis").map (·.market_ticker)

/-- The candidate loop of generate_articles_job: break once
articles_generated reaches the max, skip tickers already carrying an
analysis article, on generation success upsert and count, on failure
continue. -/
def generateLoop (existing : List String) (hour : String) (maxGen : Nat)
    (genOutcome : Market → Option GenText) :
    List Market → List Article → Nat → List Article × Nat
  | [], st, cnt => (st, cnt)
  | m :: ms, st, cnt =>
      if maxGen ≤ cnt then (st, cnt)
      else if m.ticker ∈ existing then generateLoop existing hour maxGen genOutcome ms st cnt
      else match genOutcome m with
        | some g =>
            generateLoop existing hour maxGen genOutcome ms
              (fileAddArticle (mkArticle hour m g) st) (cnt + 1)
        | none => generateLoop existing hour maxGen genOutcome ms st cnt

/-- scheduler.generate_articles_job: returns the file state and the number
of articles generated (and stored) in the cycle. -/
def generateArticlesJob (hour : String) (maxGen : Nat)
    (genOutcome : Market → Option GenText) (markets : List Market)
    (st : List Article) : List Article × Nat :=
  if markets = [] then (st, 0)
  else generateLoop (existingAnalysisTickers st) hour maxGen genOutcome markets st 0

/-- The batch loop of manual_refresh, over the already-sliced batch: no
dedup check and no counter-based break; failures are skipped. -/
def manualLoop (hour : String) (genOutcome : Market → Option GenText) :
    List Market → List Article → Nat → List Article × Nat
  | [], st, cnt => (st, cnt)
  | m :: ms, st, cnt =>
      match genOutcome m with
      | some g =>
          manualLoop hour genOutcome ms
            (fileAddArticle (mkArticle hour m g) st) (cnt + 1)
      | none => manualLoop hour genOutcome ms st cnt

/-- scheduler.manual_refresh: processes trending_markets[:max]. -/
def manualRefresh (hour : String) (maxGen : Nat)
    (genOutcome : Market → Option GenText) (markets : List Market)
    (st : List Article) : List Article × Nat :=
  if markets = [] then (st, 0)
  else manualLoop hour genOutcome (markets.take maxGen) st 0

/-- Loop state of check_resolutions_job: `processed` is the mutated
in-memory list so far, `fileState` the articles file (touched mid-loop by
cache.add_article for generated results articles), `updated` the
articles_updated flag, `resultsGenerated` the per-cycle counter, and
`generated` the results articles handed to add_article (recorded for the
statements below). -/
structure ResolutionAcc where
  processed : List Article
  fileState : List Article
  updated : Bool
  resultsGenerated : Nat
  generated : List Article
deriving DecidableEq

/-- The in-place mutation article["status"] = "resolved". -/
def resolvedOf (article : Article) : Article := { article with status := "resolved" }

/-- The results article built in the success branch of the loop:
generate_results_article(market_data, original_article=article), where the
article dict was already mutated to resolved. -/
def resultsArticleOf (hour : String) (md : Market) (g : GenText)
    (article : Article) : Article :=
  mkResultsArticle hour md g (some (resolvedOf article))

/-- The original record after the success branch also set
article["results_article_id"] = results_article["id"]. -/
def linkedOf (hour : String) (md : Market) (g : GenText)
    (article : Article) : Article :=
  { resolvedOf article with
    results_article_id := some (resultsArticleOf hour md g article).id }

/-- One iteration of the check_resolutions_job loop body. -/
def resolutionStep (now : ℚ) (hour : String)
    (getMarket : String → Option Market)
    (genResults : Market → Article → Option GenText) (maxResults : Nat)
    (acc : ResolutionAcc) (article : Article) : ResolutionAcc :=
  if article.article_type = "results" then
    { acc with processed := acc.processed ++ [article] }
  else if article.status = "resolved" then
    { acc with processed := acc.processed ++ [article] }
  else if article.market_ticker = "" then
    { acc with processed := acc.processed ++ [article] }
  else match article.close_time with
    | none => { acc with processed := acc.processed ++ [article] }
    | some closeTime =>
        if now > closeTime then
          if acc.resultsGenerated < maxResults then
            match getMarket article.market_ticker with
            | some md =>
                match md.result with
                | some r =>
                    if r = "" then
                      { acc with
                        processed := acc.processed ++ [resolvedOf article]
                        updated := true }
                    else match genResults md (resolvedOf article) with
                      | some g =>
                          { processed := acc.processed ++
                              [linkedOf hour md g article]
                            fileState := fileAddArticle
                              (resultsArticleOf hour md g article) acc.fileState
                            updated := true
                            resultsGenerated := acc.resultsGenerated + 1
                            generated := acc.generated ++
                              [resultsArticleOf hour md g article] }
                      | none =>
                          { acc with
                            processed := acc.processed ++ [resolvedOf article]
                            updated := true }
                | none =>
                    { acc with
                      processed := acc.processed ++ [resolvedOf article]
                      updated := true }
            | none =>
                { acc with
                  processed := acc.processed ++ [resolvedOf article]
                  updated := true }
          else
            { acc with
              processed := acc.processed ++ [resolvedOf article]
              updated := true }
        else { acc with processed := acc.processed ++ [article] }

/-- scheduler.check_resolutions_job on the file backend: reads the whole
list, walks it with `resolutionStep`, and — when anything was flipped —
overwrites the articles file with the mutated in-memory list (the final
cache.save_articles(articles)).  Returns the final file state and the
results articles the job generated mid-loop. -/
def checkResolutionsJob (now : ℚ) (hour : String)
    (getMarket : String → Option Market)
    (genResults : Market → Article → Option GenText) (maxResults : Nat)
    (st : List Article) : List Article × List Article :=
  if st = [] then (st, [])
  else
    let acc := st.foldl (resolutionStep now hour getMarket genResults maxResults)
      ⟨[], st, false, 0, []⟩
    (if acc.updated then fileSaveArticles acc.processed else acc.fileState,
     acc.generated)

/-! ### System traces -/

/-- One externally triggered operation of the pipeline, with its
environment inputs (clock, candidate lists, collaborator outcomes). -/
inductive Op where
  | genCycle (hour : String) (maxGen : Nat)
      (genOutcome : Market → Option GenText) (markets : List Market)
  | manual (hour : String) (maxGen : Nat)
      (genOutcome : Market → Option GenText) (markets : List Market)
  | resolveCycle (now : ℚ) (hour : String)
      (getMarket : String → Option Market)
      (genResults : Market → Article → Option GenText) (maxResults : Nat)
  | upsert (a : Article)

/-- Effect of one operation on the file-backend article list. -/
def applyOp (st : List Article) : Op → List Article
  | .genCycle hour maxGen genOutcome markets =>
      (generateArticlesJob hour maxGen genOutcome markets st).1
  | .manual hour maxGen genOutcome markets =>
      (manualRefresh hour maxGen genOutcome markets st).1
  | .resolveCycle now hour getMarket genResults maxResults =>
      (checkResolutionsJob now hour getMarket genResults maxResults st).1
  | .upsert a => fileAddArticle a st

/-- Run a trace of operations, oldest first. -/
def runOps (st : List Article) (ops : List Op) : List Article :=
  ops.foldl applyOp st

/-- Whether an operation is the manual trigger. -/
def Op.isManual : Op → Prop
  | .manual .. => True
  | _ => False

/-- Whether an operation is a raw upsert. -/
def Op.isUpsert : Op → Prop
  | .upsert _ => True
  | _ => False

/-! ### File key/value cache (FileCache get/set and key sanitization) -/

/-- FileCache._get_cache_path's sanitization: every non-alphanumeric
character becomes an underscore (ASCII inputs). -/
def sanitizeKey (key : String) : String :=
  ⟨key.data.map fun c => if c.isAlphanum then c else '_'⟩

/-- ttl = ttl or config.CACHE_TTL (default 3600): a falsy (absent or zero)
ttl falls back to the configured default. -/
def effectiveTtl (ttl : Option ℚ) : ℚ :=
  match ttl with
  | some t => if t = 0 then 3600 else t
  | none => 3600

/-- The cache directory's key files: sanitized path ↦ (value, expires_at).
FileCache.set overwrites the file at the sanitized path. -/
def fileCacheSet (now : ℚ) (key : String) (value : String) (ttl : Option ℚ)
    (st : List (String × String × ℚ)) : List (String × String × ℚ) :=
  (sanitizeKey key, value, now + effectiveTtl ttl) ::
    st.filter fun e => e.1 ≠ sanitizeKey key

/-- FileCache.get reads the file at the sanitized path and treats an entry
with expires_at in the strict past as absent (the lazy unlink of the
expired file does not change the returned value and is omitted). -/
def fileCacheGet (now : ℚ) (key : String)
    (st : List (String × String × ℚ)) : Option String :=
  match st.find? (fun e => e.1 == sanitizeKey key) with
  | none => none
  | some e => if now > e.2.2 then none else some e.2.1

/-- FileCache.delete removes the file at the sanitized path. -/
def fileCacheDelete (key : String) (st : List (String × String × ℚ)) :
    List (String × String × ℚ) :=
  st.filter fun e => e.1 ≠ sanitizeKey key

/-! ### Shared storage lemmas -/

/-- Membership after an upsert: each retained record is the new article or
an old record with a different id. -/
lemma mem_fileAddArticle {b a : Article} {l : List Article}
    (hb : b ∈ fileAddArticle a l) : b = a ∨ (b ∈ l ∧ b.id ≠ a.id) := by
  have h1 : b ∈ a :: l.filter fun x => x.id ≠ a.id :=
    (List.take_sublist _ _).mem hb
  rcases List.mem_cons.mp h1 with h | h
  · exact Or.inl h
  · rcases List.mem_filter.mp h with ⟨hmem, hid⟩
    exact Or.inr ⟨hmem, by simpa using hid⟩

/-- An upsert keeps ids pairwise distinct. -/
lemma nodup_fileAddArticle {a : Article} {l : List Article}
    (h : (l.map (·.id)).Nodup) :
    ((fileAddArticle a l).map (·.id)).Nodup := by
  have hsub : List.Sublist ((fileAddArticle a l).map (·.id))
      ((a :: l.filter fun x => x.id ≠ a.id).map (·.id)) :=
    (List.take_sublist _ _).map _
  refine hsub.nodup ?_
  simp only [List.map_cons, List.nodup_cons]
  constructor
  · intro hmem
    rcases List.mem_map.mp hmem with ⟨x, hx, hxid⟩
    rcases List.mem_filter.mp hx with ⟨_, hne⟩
    have hne' : x.id ≠ a.id := by simpa using hne
    exact hne' hxid
  · exact ((List.filter_sublist l).map _).nodup h

/-- The length bound of the cap. -/
lemma length_fileAddArticle_le (a : Article) (l : List Article) :
    (fileAddArticle a l).length ≤ 50 :=
  List.length_take_le _ _

/-- The record stored under the upserted id is the new article, in full. -/
lemma getArticleById_fileAddArticle (a : Article) (l : List Article) :
    getArticleById a.id (fileAddArticle a l) = some a := by
  have h50 : fileAddArticle a l = a :: (l.filter fun x => x.id ≠ a.id).take 49 := by
    simp [fileAddArticle]
  rw [h50, getArticleById, List.find?_cons_of_pos _ (by simp)]

/-- Upsert sequences keep ids pairwise distinct. -/
lemma nodup_upsertAll {l : List Article} (us : List Article)
    (h : (l.map (·.id)).Nodup) : ((upsertAll l us).map (·.id)).Nodup := by
  induction us generalizing l with
  | nil => exact h
  | cons u us ih => exact ih (nodup_fileAddArticle h)

/-- The cap bound after any nonempty upsert sequence; from a start within
the cap it holds for the whole sequence. -/
lemma length_upsertAll_le {l : List Article} (us : List Article)
    (h : l.length ≤ 50) : (upsertAll l us).length ≤ 50 := by
  induction us generalizing l with
  | nil => exact h
  | cons u us ih => exact ih (length_fileAddArticle_le u l)

/-- Truncating the tail before appending cannot change a truncation of the
whole. -/
lemma take_append_take (A x : List Article) :
    (A ++ x.take 50).take 50 = (A ++ x).take 50 := by
  rw [List.take_append_eq_append_take, List.take_append_eq_append_take,
    List.take_take]
  congr 1
  exact congrArg (fun n => x.take n) (Nat.min_eq_left (Nat.sub_le _ _))

/-- Fresh-id upserts land at the front, most recent first, ahead of the
initial records, truncated to the cap. -/
lemma upsertAll_fresh {l : List Article} {us : List Article}
    (hcap : l.length ≤ 50) (hnodup : (us.map (·.id)).Nodup)
    (hfresh : ∀ u ∈ us, u.id ∉ l.map (·.id)) :
    upsertAll l us = (us.reverse ++ l).take 50 := by
  induction us generalizing l with
  | nil => simp [upsertAll, List.take_of_length_le hcap]
  | cons u us ih =>
      have hn : u.id ∉ us.map (·.id) ∧ (us.map (·.id)).Nodup := by
        rw [List.map_cons, List.nodup_cons] at hnodup
        exact hnodup
      have hufresh : u.id ∉ l.map (·.id) := hfresh u (List.mem_cons_self u us)
      have hfilter : (l.filter fun x => x.id ≠ u.id) = l := by
        apply List.filter_eq_self.mpr
        intro x hx
        have hxne : x.id ≠ u.id :=
          fun hxid => hufresh (List.mem_map.mpr ⟨x, hx, hxid⟩)
        simp [hxne]
      have hadd : fileAddArticle u l = (u :: l).take 50 := by
        simp only [fileAddArticle]
        rw [hfilter]
      have hstep : upsertAll l (u :: us) = upsertAll (fileAddArticle u l) us := rfl
      rw [hstep, hadd, ih (List.length_take_le _ _) hn.2 ?fresh]
      · rw [take_append_take, List.reverse_cons, List.append_assoc]
        rfl
      case fresh =>
        intro v hv hvid
        rcases List.mem_map.mp hvid with ⟨x, hx, hxid⟩
        have hx' : x ∈ u :: l := (List.take_sublist _ _).mem hx
        rcases List.mem_cons.mp hx' with rfl | hxl
        · exact hn.1 (List.mem_map.mpr ⟨v, hv, hxid.symm⟩)
        · exact hfresh v (List.mem_cons_of_mem u hv) (List.mem_map.mpr ⟨x, hxl, hxid⟩)

/-! ### Concrete instances used by the claims -/

/-- The spec §8 example candidate: volume 5000, 24h volume 1000, price 50,
open interest 2000, closing ten days (864000 s) after `now = 0`. -/
def exMarket10d : Market :=
  { ticker := "EX", title := "Example", yes_bid := some 50, last_price := none,
    yes_price := none, volume := some 5000, volume_24h := some 1000,
    open_interest := some 2000, close_time := some 864000, result := none,
    final_probability := none }

/-- The same candidate closing one hour after `now = 0`. -/
def exMarket1h : Market := { exMarket10d with close_time := some 3600 }

/-- A candidate priced exactly at 90 with no other contributions. -/
def price90Market : Market :=
  { ticker := "P90", title := "Boundary", yes_bid := some 90, last_price := none,
    yes_price := none, volume := none, volume_24h := none,
    open_interest := none, close_time := none, result := none,
    final_probability := none }

/-- A stored record under id "Z" (the first upsert of the spec §8 example). -/
def cxOld : Article :=
  { id := "Z", article_type := "analysis", title := "first", teaser := "t1",
    content := "c1", market_ticker := "T1", market_title := "M1",
    probability := some 40, outcome := none, generated_at := "2025010100",
    close_time := some 1000, volume := 5, status := "active", word_count := 5,
    original_article_id := none, results_article_id := none }

/-- A second record under the same id "Z" differing in every mutable field. -/
def cxNew : Article :=
  { id := "Z", article_type := "results", title := "second", teaser := "t2",
    content := "c2", market_ticker := "T2", market_title := "M2",
    probability := some 60, outcome := some "yes", generated_at := "2025010101",
    close_time := some 2000, volume := 7, status := "resolved", word_count := 7,
    original_article_id := some "orig", results_article_id := some "rid" }

/-- Distinct-id records used for the 55-upsert instance. -/
def mkNumArticle (i : Nat) : Article := { cxOld with id := toString i }

/-! ### Claim C5: the interest score -/

/-- C5, counterexample: at price exactly 90 the code awards the +10 band
bonus (`10 <= yes_price <= 90`, both ends inclusive) while the claimed
formula's band `10 <= price < 90` awards 0, so the claimed equality fails
at this candidate. -/
theorem claim5_counterexample :
    calculateMarketScore 0 price90Market = 10 ∧
    specScore 0 price90Market = 0 := by
  constructor <;>
    norm_num [calculateMarketScore, specScore, bandBonus, specBandBonus,
      yesPrice, specTimeDecay, price90Market, min_def]

/-- C5, amended: the interest score equals the claimed capped sum times
the claimed time decay, with the band bonus amended to be 10 on the closed
interval 10 ≤ price ≤ 90 (inclusive at 90); the spec §8 examples score 39
with close in 10 days and 117/10 with close in 1 hour. -/
theorem claim5_amended :
    (∀ (now : ℚ) (m : Market),
      calculateMarketScore now m =
        (min (m.volume.getD 0 / 1000) 50 + min (m.volume_24h.getD 0 / 100) 30
          + bandBonus (yesPrice m) + min (m.open_interest.getD 0 / 500) 20)
          * specTimeDecay now m.close_time)
    ∧ calculateMarketScore 0 exMarket10d = 39
    ∧ calculateMarketScore 0 exMarket1h = 117 / 10 := by
  refine ⟨?_,
    by norm_num [calculateMarketScore, bandBonus, yesPrice, exMarket10d,
      min_def],
    by norm_num [calculateMarketScore, bandBonus, yesPrice, exMarket1h,
      exMarket10d, min_def]⟩
  intro now m
  cases hc : m.close_time with
  | none => simp [calculateMarketScore, specTimeDecay, hc]
  | some ct =>
      simp only [calculateMarketScore, specTimeDecay, hc]
      split_ifs <;> ring

/-! ### Claim C9: file cache key sanitization and aliasing -/

/-- C9: file-backend get/set/delete address the entry at the sanitized
key (non-alphanumeric characters become underscores); two distinct keys
with equal sanitized forms — such as "a.b" and "a:b" — alias one entry, so
a set on one is visible to a get on the other before expiry. -/
theorem claim9_sanitized_alias :
    (sanitizeKey "a.b" = "a_b" ∧ sanitizeKey "a:b" = "a_b" ∧ "a.b" ≠ "a:b")
    ∧ (∀ (k1 k2 : String) (now nowGet : ℚ) (ttl : Option ℚ) (v : String)
        (st : List (String × String × ℚ)),
        sanitizeKey k1 = sanitizeKey k2 →
        ¬ nowGet > now + effectiveTtl ttl →
        fileCacheGet nowGet k1 (fileCacheSet now k2 v ttl st) = some v)
    ∧ (∀ (k1 k2 : String) (st : List (String × String × ℚ)),
        sanitizeKey k1 = sanitizeKey k2 →
        fileCacheDelete k1 st = fileCacheDelete k2 st) := by
  refine ⟨by decide, ?_, ?_⟩
  · intro k1 k2 now nowGet ttl v st hs hexp
    simp only [fileCacheGet, fileCacheSet]
    rw [hs, List.find?_cons_of_pos _ (by simp)]
    simp [hexp]
  · intro k1 k2 st hs
    simp only [fileCacheDelete]
    rw [hs]

/-- C9, witness: the aliasing theorem applied to the keys "a.b" and
"a:b" at concrete times. -/
theorem claim9_witness :
    fileCacheGet 1 "a.b" (fileCacheSet 0 "a:b" "v" none []) = some "v" :=
  claim9_sanitized_alias.2.1 "a.b" "a:b" 0 1 none "v" [] (by decide)
    (by norm_num [effectiveTtl])

/-! ### Claim C1: upsert-replace across the three backends -/

/-- C1, counterexample: upserting a second record under the id "Z" fully
replaces the stored record on the file and redis backends, but on the
postgres backend the stored record keeps the old word_count (5, not the
new 7) — the three backends are not equivalent on upsert and postgres does
not replace in full. -/
theorem claim1_counterexample :
    getArticleById "Z" (fileAddArticle cxNew [cxOld]) = some cxNew
    ∧ getArticleById "Z" (redisAddArticle cxNew [cxOld]) = some cxNew
    ∧ getArticleById "Z" (pgAddArticle cxNew [cxOld]) ≠ some cxNew
    ∧ (getArticleById "Z" (pgAddArticle cxNew [cxOld])).map (·.word_count)
        = some 5
    ∧ cxNew.word_count = 7 := by
  refine ⟨by decide, by decide, by decide, by decide, by decide⟩

/-- C1, amended: the file and redis upserts are identical and replace the
stored record in full; the postgres upsert replaces only title, teaser,
content, status and the extension-map field results_article_id, and keeps
every other column (id, article_type, market_ticker, market_title,
probability, outcome, generated_at, close_time, volume, word_count,
original_article_id) from the previously stored record. -/
theorem claim1_amended :
    (∀ (a : Article) (l : List Article), fileAddArticle a l = redisAddArticle a l)
    ∧ (∀ (a : Article) (l : List Article),
        getArticleById a.id (fileAddArticle a l) = some a)
    ∧ (∀ (a old : Article) (l : List Article), old.id = a.id →
        getArticleById a.id (pgAddArticle a (old :: l)) = some (pgMerge old a))
    ∧ (∀ (old b : Article),
        (pgMerge old b).title = b.title ∧ (pgMerge old b).teaser = b.teaser
        ∧ (pgMerge old b).content = b.content
        ∧ (pgMerge old b).status = b.status
        ∧ (pgMerge old b).results_article_id = b.results_article_id
        ∧ (pgMerge old b).id = old.id
        ∧ (pgMerge old b).article_type = old.article_type
        ∧ (pgMerge old b).market_ticker = old.market_ticker
        ∧ (pgMerge old b).market_title = old.market_title
        ∧ (pgMerge old b).probability = old.probability
        ∧ (pgMerge old b).outcome = old.outcome
        ∧ (pgMerge old b).generated_at = old.generated_at
        ∧ (pgMerge old b).close_time = old.close_time
        ∧ (pgMerge old b).volume = old.volume
        ∧ (pgMerge old b).word_count = old.word_count
        ∧ (pgMerge old b).original_article_id = old.original_article_id) := by
  refine ⟨fun a l => rfl, fun a l => getArticleById_fileAddArticle a l, ?_, ?_⟩
  · intro a old l h
    simp [pgAddArticle, getArticleById, pgMerge, h]
  · intro old b
    exact ⟨rfl, rfl, rfl, rfl, rfl, rfl, rfl, rfl, rfl, rfl, rfl, rfl, rfl,
      rfl, rfl, rfl⟩

/-- C1, witness: the amended theorem's postgres clause applied to the
concrete pair of records under id "Z". -/
theorem claim1_witness :
    getArticleById cxNew.id (pgAddArticle cxNew [cxOld])
      = some (pgMerge cxOld cxNew) :=
  claim1_amended.2.2.1 cxNew cxOld [] (by decide)

/-! ### Claim C7: no duplicate ids -/

/-- C7: from a collection with pairwise-distinct ids, any sequence of
upserts keeps ids pairwise distinct; upserting id "Z" twice with different
titles leaves exactly the one record holding the second title. -/
theorem claim7_unique_ids :
    (∀ (l us : List Article), (l.map (·.id)).Nodup →
      ((upsertAll l us).map (·.id)).Nodup)
    ∧ upsertAll [] [cxOld, { cxOld with title := "second" }]
        = [{ cxOld with title := "second" }] := by
  exact ⟨fun l us h => nodup_upsertAll us h, by decide⟩

/-- C7, witness: the distinct-ids theorem applied to a concrete two-upsert
sequence from the empty collection. -/
theorem claim7_witness :
    ((upsertAll [] [cxOld, cxNew]).map (·.id)).Nodup :=
  claim7_unique_ids.1 [] [cxOld, cxNew] (by decide)

/-! ### Claim C6: the capacity bound -/

/-- C6: on the capped file/redis backend, starting within the cap, every
point of an upsert sequence stays within 50 records; fresh-id upserts are
retained most-recent-first ahead of the initial records, truncated to the
cap; and 55 sequential upserts of distinct ids from empty leave exactly
the 50 most recent, most-recent-first. -/
theorem claim6_cap :
    (∀ (l us : List Article) (k : Nat), l.length ≤ 50 →
      (upsertAll l (us.take k)).length ≤ 50)
    ∧ (∀ (l us : List Article), l.length ≤ 50 → (us.map (·.id)).Nodup →
        (∀ u ∈ us, u.id ∉ l.map (·.id)) →
        upsertAll l us = (us.reverse ++ l).take 50)
    ∧ upsertAll [] ((List.range 55).map mkNumArticle)
        = (((List.range 55).map mkNumArticle).reverse).take 50
    ∧ (upsertAll [] ((List.range 55).map mkNumArticle)).length = 50 := by
  refine ⟨fun l us k h => length_upsertAll_le _ h,
    fun l us h1 h2 h3 => upsertAll_fresh h1 h2 h3, by decide, by decide⟩

/-- C6, witness: the capped-sequence theorem applied to one concrete
upsert from the empty collection. -/
theorem claim6_witness :
    (upsertAll [] ([cxOld].take 1)).length ≤ 50 ∧
    upsertAll [] [cxOld] = ([cxOld].reverse ++ []).take 50 :=
  ⟨claim6_cap.1 [] [cxOld] 1 (by decide),
   claim6_cap.2.1 [] [cxOld] (by decide) (by decide) (by decide)⟩

/-! ### Generation-cycle lemmas -/

/-- Once the per-cycle counter has reached the max, the loop changes
nothing. -/
lemma generateLoop_break {existing : List String} {hour : String}
    {maxGen : Nat} {g : Market → Option GenText} (ms : List Market)
    {st : List Article} {cnt : Nat} (h : maxGen ≤ cnt) :
    generateLoop existing hour maxGen g ms st cnt = (st, cnt) := by
  cases ms with
  | nil => rfl
  | cons m ms => simp [generateLoop, h]

/-- The generated-count of the scheduled loop never exceeds the bound. -/
lemma generateLoop_count_le (existing : List String) (hour : String)
    (maxGen : Nat) (g : Market → Option GenText) :
    ∀ (ms : List Market) (st : List Article) (cnt : Nat), cnt ≤ maxGen →
    (generateLoop existing hour maxGen g ms st cnt).2 ≤ maxGen := by
  intro ms
  induction ms with
  | nil => intro st cnt h; simpa [generateLoop] using h
  | cons m ms ih =>
      intro st cnt h
      by_cases hb : maxGen ≤ cnt
      · simpa [generateLoop, hb] using h
      · by_cases ht : m.ticker ∈ existing
        · simpa [generateLoop, hb, ht] using ih st cnt h
        · cases hg : g m with
          | some gt =>
              have hcnt : cnt + 1 ≤ maxGen := Nat.succ_le_of_lt (lt_of_not_ge hb)
              simpa [generateLoop, hb, ht, hg] using ih _ (cnt + 1) hcnt
          | none => simpa [generateLoop, hb, ht, hg] using ih st cnt h

/-- The manual loop generates at most one article per batch element. -/
lemma manualLoop_count_le (hour : String) (g : Market → Option GenText) :
    ∀ (ms : List Market) (st : List Article) (cnt : Nat),
    (manualLoop hour g ms st cnt).2 ≤ cnt + ms.length := by
  intro ms
  induction ms with
  | nil => intro st cnt; simp [manualLoop]
  | cons m ms ih =>
      intro st cnt
      cases hg : g m with
      | some gt =>
          have h2 := ih (fileAddArticle (mkArticle hour m gt) st) (cnt + 1)
          simp only [manualLoop, hg, List.length_cons]
          exact h2.trans (by omega)
      | none =>
          have h2 := ih st cnt
          simp only [manualLoop, hg, List.length_cons]
          exact h2.trans (by omega)

/-- A failing candidate is invisible to the scheduled loop: the cycle
behaves as if the candidate were absent. -/
lemma generateLoop_skip_failed {existing : List String} {hour : String}
    {maxGen : Nat} {g : Market → Option GenText} {bad : Market}
    (hbad : g bad = none) (ms2 : List Market) :
    ∀ (ms1 : List Market) (st : List Article) (cnt : Nat),
    generateLoop existing hour maxGen g (ms1 ++ bad :: ms2) st cnt
      = generateLoop existing hour maxGen g (ms1 ++ ms2) st cnt := by
  intro ms1
  induction ms1 with
  | nil =>
      intro st cnt
      by_cases hb : maxGen ≤ cnt
      · rw [List.nil_append, List.nil_append, generateLoop_break _ hb,
          generateLoop_break _ hb]
      · by_cases ht : bad.ticker ∈ existing
        · simp [generateLoop, hb, ht]
        · simp [generateLoop, hb, ht, hbad]
  | cons m ms1 ih =>
      intro st cnt
      by_cases hb : maxGen ≤ cnt
      · rw [List.cons_append, generateLoop_break _ hb, List.cons_append,
          generateLoop_break _ hb]
      · by_cases ht : m.ticker ∈ existing
        · simpa [generateLoop, hb, ht] using ih st cnt
        · cases hg : g m with
          | some gt => simpa [generateLoop, hb, ht, hg] using ih _ (cnt + 1)
          | none => simpa [generateLoop, hb, ht, hg] using ih st cnt

/-- A failing candidate is invisible to the manual batch loop. -/
lemma manualLoop_skip_failed {hour : String} {g : Market → Option GenText}
    {bad : Market} (hbad : g bad = none) (ms2 : List Market) :
    ∀ (ms1 : List Market) (st : List Article) (cnt : Nat),
    manualLoop hour g (ms1 ++ bad :: ms2) st cnt
      = manualLoop hour g (ms1 ++ ms2) st cnt := by
  intro ms1
  induction ms1 with
  | nil => intro st cnt; simp [manualLoop, hbad]
  | cons m ms1 ih =>
      intro st cnt
      cases hg : g m with
      | some gt => simpa [manualLoop, hg] using ih _ (cnt + 1)
      | none => simpa [manualLoop, hg] using ih st cnt

/-! ### Claim C8: per-cycle bound and failure isolation -/

/-- C8: in every generation cycle — scheduled or manual — the number of
newly generated-and-stored analysis items is at most the configured
max-per-cycle bound, and a failing candidate (generation returned nothing:
fetch, parse or storage error) leaves the processing of the rest of the
batch unchanged. -/
theorem claim8_bound_and_isolation :
    (∀ (hour : String) (maxGen : Nat) (g : Market → Option GenText)
        (ms : List Market) (st : List Article),
        (generateArticlesJob hour maxGen g ms st).2 ≤ maxGen)
    ∧ (∀ (hour : String) (maxGen : Nat) (g : Market → Option GenText)
        (ms : List Market) (st : List Article),
        (manualRefresh hour maxGen g ms st).2 ≤ maxGen)
    ∧ (∀ (existing : List String) (hour : String) (maxGen : Nat)
        (g : Market → Option GenText) (bad : Market)
        (ms1 ms2 : List Market) (st : List Article) (cnt : Nat),
        g bad = none →
        generateLoop existing hour maxGen g (ms1 ++ bad :: ms2) st cnt
          = generateLoop existing hour maxGen g (ms1 ++ ms2) st cnt)
    ∧ (∀ (hour : String) (g : Market → Option GenText) (bad : Market)
        (ms1 ms2 : List Market) (st : List Article) (cnt : Nat),
        g bad = none →
        manualLoop hour g (ms1 ++ bad :: ms2) st cnt
          = manualLoop hour g (ms1 ++ ms2) st cnt) := by
  refine ⟨?_, ?_, ?_, ?_⟩
  · intro hour maxGen g ms st
    by_cases hms : ms = []
    · simp [generateArticlesJob, hms]
    · simp only [generateArticlesJob, if_neg hms]
      exact generateLoop_count_le _ _ _ _ ms st 0 (Nat.zero_le _)
  · intro hour maxGen g ms st
    by_cases hms : ms = []
    · simp [manualRefresh, hms]
    · simp only [manualRefresh, if_neg hms]
      exact (manualLoop_count_le hour g (ms.take maxGen) st 0).trans
        (by rw [Nat.zero_add]; exact List.length_take_le maxGen ms)
  · intro existing hour maxGen g bad ms1 ms2 st cnt hbad
    exact generateLoop_skip_failed hbad ms2 ms1 st cnt
  · intro hour g bad ms1 ms2 st cnt hbad
    exact manualLoop_skip_failed hbad ms2 ms1 st cnt

/-- C8, witness: the failure-isolation clauses applied to a concrete
always-failing generator on a one-candidate batch. -/
theorem claim8_witness :
    generateLoop [] "2025010100" 3 (fun _ => none) ([] ++ exMarket10d :: []) [] 0
      = generateLoop [] "2025010100" 3 (fun _ => none) ([] ++ []) [] 0 ∧
    manualLoop "2025010100" (fun _ => none) ([] ++ exMarket10d :: []) [] 0
      = manualLoop "2025010100" (fun _ => none) ([] ++ []) [] 0 :=
  ⟨claim8_bound_and_isolation.2.2.1 [] "2025010100" 3 (fun _ => none)
      exMarket10d [] [] [] 0 rfl,
   claim8_bound_and_isolation.2.2.2 "2025010100" (fun _ => none)
      exMarket10d [] [] [] 0 rfl⟩

/-! ### Claim C10: generator output fields -/

/-- The market covered by the analysis article of the C10 and C2..C4
scenarios. -/
def genFOO : Market :=
  { ticker := "FOO", title := "F?", yes_bid := some 60, last_price := none,
    yes_price := none, volume := some 3, volume_24h := none,
    open_interest := none, close_time := some 0, result := none,
    final_probability := none }

/-- A parsed generation response. -/
def gA : GenText := ⟨"ta", "sa", "one two three"⟩

/-- A parsed results-generation response. -/
def gR : GenText := ⟨"tr", "sr", "x y"⟩

/-- C10, counterexample: an analysis article generated in the hour bucket
2025010100 has id d3a6a22f828d, but the results article generated for the
same market in the next hour bucket has id 855632905c1a-results — the id
scheme is re-applied at the results-generation hour, so the results id is
not the analysis id with the "-results" suffix. -/
theorem claim10_counterexample :
    (generateArticle "2025010100" genFOO (some gA)).map (·.id)
        = some "d3a6a22f828d"
    ∧ (generateResultsArticle "2025010101" genFOO
          (some (mkArticle "2025010100" genFOO gA)) (some gR)).map (·.id)
        = some ("855632905c1a" ++ "-results")
    ∧ ("855632905c1a" ++ "-results" : String) ≠ "d3a6a22f828d" ++ "-results" := by
  refine ⟨by decide, by decide, by decide⟩

/-- C10, amended: every successfully returned analysis item has type
"analysis", status "active" and word_count counting the whitespace-
separated tokens of its content; every successfully returned results item
has type "results", status "resolved", word_count likewise,
original_article_id pointing at the passed original, and an id equal to
the id scheme applied to (ticker, results-generation hour) plus
"-results" — which equals the analysis id plus "-results" exactly when
the analysis id came from the same ticker and hour bucket. -/
theorem claim10_amended :
    (∀ (hour : String) (m : Market) (g : GenText) (a : Article),
        generateArticle hour m (some g) = some a →
        a.article_type = "analysis" ∧ a.status = "active"
        ∧ a.content = g.content ∧ a.word_count = countWords a.content)
    ∧ (∀ (hour : String) (md : Market) (orig : Option Article) (g : GenText)
        (ra : Article),
        generateResultsArticle hour md orig (some g) = some ra →
        ra.article_type = "results" ∧ ra.status = "resolved"
        ∧ ra.id = generateArticleId md.ticker hour ++ "-results"
        ∧ ra.content = g.content ∧ ra.word_count = countWords ra.content
        ∧ ra.original_article_id = orig.map (·.id))
    ∧ (∀ (hour : String) (md : Market) (g : GenText) (a0 : Article),
        a0.id = generateArticleId md.ticker hour →
        (mkResultsArticle hour md g (some a0)).id = a0.id ++ "-results") := by
  refine ⟨?_, ?_, ?_⟩
  · intro hour m g a h
    have h' : mkArticle hour m g = a := Option.some.inj h
    subst h'
    exact ⟨rfl, rfl, rfl, rfl⟩
  · intro hour md orig g ra h
    have h' : mkResultsArticle hour md g orig = ra := Option.some.inj h
    subst h'
    exact ⟨rfl, rfl, rfl, rfl, rfl, rfl⟩
  · intro hour md g a0 h
    show generateArticleId md.ticker hour ++ "-results" = a0.id ++ "-results"
    rw [h]

/-- C10, witness: the analysis and results clauses applied to the concrete
generation outcomes of the FOO market. -/
theorem claim10_witness :
    (mkArticle "2025010100" genFOO gA).article_type = "analysis"
    ∧ (mkResultsArticle "2025010101" genFOO gR none).article_type = "results" :=
  ⟨(claim10_amended.1 "2025010100" genFOO gA _ rfl).1,
   (claim10_amended.2.1 "2025010101" genFOO none gR _ rfl).1⟩

/-! ### Claim C2: one resolution cycle, file backend -/

/-- The C2 stored state: one active analysis item whose close time (0) is
already in the past at `now = 1`. -/
def c2Orig : Article :=
  { id := "origid", article_type := "analysis", title := "A", teaser := "s",
    content := "w1 w2", market_ticker := "FOO", market_title := "F?",
    probability := some 40, outcome := none, generated_at := "2025010100",
    close_time := some 0, volume := 3, status := "active", word_count := 2,
    original_article_id := none, results_article_id := none }

/-- The authoritative market data fetched during the C2 resolution cycle:
the market has a settled result. -/
def c2Market : Market :=
  { ticker := "FOO", title := "F?", yes_bid := none, last_price := none,
    yes_price := some 60, volume := some 3, volume_24h := none,
    open_interest := none, close_time := some 0, result := some "yes",
    final_probability := some 12 }

/-- kalshi.get_market during the C2 cycle. -/
def c2GetMarket : String → Option Market :=
  fun t => if t = "FOO" then some c2Market else none

/-- A successful results generation. -/
def c2GenOk : Market → Article → Option GenText := fun _ _ => some gR

/-- A failing results generation (API error or parse failure). -/
def c2GenFail : Market → Article → Option GenText := fun _ _ => none

/-- The id of the results article generated in hour bucket 2025010101. -/
def c2ResultsId : String := generateArticleId "FOO" "2025010101" ++ "-results"

/-- The C2 original item after the successful cycle: resolved, pointing at
the (absent) results item. -/
def c2ResolvedLinked : Article :=
  { c2Orig with
    status := "resolved"
    results_article_id := some c2ResultsId }

/-- The C2 original item after the failed cycle: resolved, link unset. -/
def c2ResolvedUnlinked : Article := { c2Orig with status := "resolved" }

/-- C2: one resolution cycle over an active item with close_time in the
past flips its stored status to resolved, and on generation failure
results_article_id stays unset — as the claim says.  But on generation
success the results item, although produced and handed to add_article
(second component), is NOT in the stored collection afterwards: the
cycle's final save_articles overwrites the articles file with the
pre-cycle list, losing the mid-loop insert.  Only the original item (with
a dangling results_article_id) remains. -/
theorem claim2_results_item_lost :
    (checkResolutionsJob 1 "2025010101" c2GetMarket c2GenOk 2 [c2Orig]).1
        = [c2ResolvedLinked]
    ∧ ((checkResolutionsJob 1 "2025010101" c2GetMarket c2GenOk 2
          [c2Orig]).2).map (·.id) = [c2ResultsId]
    ∧ getArticleById c2ResultsId
        (checkResolutionsJob 1 "2025010101" c2GetMarket c2GenOk 2 [c2Orig]).1
        = none
    ∧ (checkResolutionsJob 1 "2025010101" c2GetMarket c2GenFail 2 [c2Orig]).1
        = [c2ResolvedUnlinked] := by
  refine ⟨by decide, by decide, by decide, by decide⟩

/-! ### Trace lemmas for the reachable-state claims -/

/-- The active-analysis-per-ticker count examined by the dedup invariant. -/
def countActiveAnalysis (t : String) (l : List Article) : Nat :=
  (l.filter fun a =>
    a.article_type == "analysis" && a.status == "active"
      && a.market_ticker == t).length

/-- The active-analysis-per-ticker predicate. -/
def IsActiveAnalysis (t : String) (a : Article) : Prop :=
  a.article_type = "analysis" ∧ a.status = "active" ∧ a.market_ticker = t

/-- The two-part state invariant: pairwise-distinct ids, and—per ticker—
any two stored active analysis items coincide. -/
def StateInv (l : List Article) : Prop :=
  ((l.map (·.id)).Nodup) ∧
    ∀ (t : String) (x y : Article), x ∈ l → y ∈ l →
      IsActiveAnalysis t x → IsActiveAnalysis t y → x = y

/-- With distinct ids, equal-id members coincide. -/
lemma eq_of_mem_of_nodup_ids {l : List Article} {x y : Article}
    (hn : (l.map (·.id)).Nodup) (hx : x ∈ l) (hy : y ∈ l)
    (hid : x.id = y.id) : x = y :=
  List.inj_on_of_nodup_map hn hx hy hid

/-- The invariant bounds the per-ticker count of the stored list. -/
lemma countActiveAnalysis_le_one {l : List Article} (h : StateInv l)
    (t : String) : countActiveAnalysis t l ≤ 1 := by
  by_contra hgt
  push_neg at hgt
  have h2 : 2 ≤ (l.filter fun a =>
      a.article_type == "analysis" && a.status == "active"
        && a.market_ticker == t).length := hgt
  obtain ⟨x, y, hsub⟩ : ∃ x y, List.Sublist [x, y] (l.filter fun a =>
      a.article_type == "analysis" && a.status == "active"
        && a.market_ticker == t) := by
    cases hl : (l.filter fun a =>
      a.article_type == "analysis" && a.status == "active"
        && a.market_ticker == t) with
    | nil => rw [hl] at h2; simp at h2
    | cons a as =>
        cases as with
        | nil => rw [hl] at h2; simp at h2
        | cons b bs =>
            exact ⟨a, b, (List.cons_sublist_cons.mpr
              (List.cons_sublist_cons.mpr (List.nil_sublist bs)))⟩
  have hxmem := hsub.mem (List.mem_cons_self x [y])
  have hymem := hsub.mem (List.mem_cons_of_mem x (List.mem_cons_self y []))
  have hfilter : List.Sublist (l.filter fun a =>
      a.article_type == "analysis" && a.status == "active"
        && a.market_ticker == t) l := List.filter_sublist l
  have hxl : x ∈ l := hfilter.mem hxmem
  have hyl : y ∈ l := hfilter.mem hymem
  have hxp : IsActiveAnalysis t x := by
    have := List.of_mem_filter hxmem
    simp only [Bool.and_eq_true, beq_iff_eq] at this
    exact ⟨this.1.1, this.1.2, this.2⟩
  have hyp : IsActiveAnalysis t y := by
    have := List.of_mem_filter hymem
    simp only [Bool.and_eq_true, beq_iff_eq] at this
    exact ⟨this.1.1, this.1.2, this.2⟩
  have hxy : x = y := h.2 t x y hxl hyl hxp hyp
  have hnd : ([x, y]).Nodup := hsub.nodup
    (((List.filter_sublist l).map (·.id)).nodup h.1 |>.of_map _)
  simp [hxy] at hnd

/-- Where a record in the post-cycle state of the scheduled loop comes
from: the prior state, or a fresh analysis article for a non-excluded
candidate of the batch. -/
lemma generateLoop_mem {existing : List String} {hour : String}
    {maxGen : Nat} {g : Market → Option GenText} :
    ∀ (ms : List Market) (st : List Article) (cnt : Nat) (y : Article),
    y ∈ (generateLoop existing hour maxGen g ms st cnt).1 →
    y ∈ st ∨ ∃ m ∈ ms, m.ticker ∉ existing ∧
      ∃ gt, g m = some gt ∧ y = mkArticle hour m gt := by
  intro ms
  induction ms with
  | nil => intro st cnt y hy; exact Or.inl hy
  | cons m ms ih =>
      intro st cnt y hy
      by_cases hb : maxGen ≤ cnt
      · rw [generateLoop_break _ hb] at hy; exact Or.inl hy
      · by_cases ht : m.ticker ∈ existing
        · rw [show generateLoop existing hour maxGen g (m :: ms) st cnt
              = generateLoop existing hour maxGen g ms st cnt by
              simp [generateLoop, hb, ht]] at hy
          rcases ih st cnt y hy with h | ⟨m', hm', h2⟩
          · exact Or.inl h
          · exact Or.inr ⟨m', List.mem_cons_of_mem m hm', h2⟩
        · cases hg : g m with
          | some gt =>
              rw [show generateLoop existing hour maxGen g (m :: ms) st cnt
                  = generateLoop existing hour maxGen g ms
                      (fileAddArticle (mkArticle hour m gt) st) (cnt + 1) by
                  simp [generateLoop, hb, ht, hg]] at hy
              rcases ih _ _ y hy with h | ⟨m', hm', h2⟩
              · rcases mem_fileAddArticle h with rfl | ⟨h3, _⟩
                · exact Or.inr ⟨m, List.mem_cons_self m ms, ht, gt, hg, rfl⟩
                · exact Or.inl h3
              · exact Or.inr ⟨m', List.mem_cons_of_mem m hm', h2⟩
          | none =>
              rw [show generateLoop existing hour maxGen g (m :: ms) st cnt
                  = generateLoop existing hour maxGen g ms st cnt by
                  simp [generateLoop, hb, ht, hg]] at hy
              rcases ih st cnt y hy with h | ⟨m', hm', h2⟩
              · exact Or.inl h
              · exact Or.inr ⟨m', List.mem_cons_of_mem m hm', h2⟩

/-- The scheduled loop keeps ids pairwise distinct. -/
lemma generateLoop_nodup {existing : List String} {hour : String}
    {maxGen : Nat} {g : Market → Option GenText} :
    ∀ (ms : List Market) (st : List Article) (cnt : Nat),
    (st.map (·.id)).Nodup →
    (((generateLoop existing hour maxGen g ms st cnt).1).map (·.id)).Nodup := by
  intro ms
  induction ms with
  | nil => intro st cnt h; exact h
  | cons m ms ih =>
      intro st cnt h
      by_cases hb : maxGen ≤ cnt
      · rw [generateLoop_break _ hb]; exact h
      · by_cases ht : m.ticker ∈ existing
        · rw [show generateLoop existing hour maxGen g (m :: ms) st cnt
              = generateLoop existing hour maxGen g ms st cnt by
              simp [generateLoop, hb, ht]]
          exact ih st cnt h
        · cases hg : g m with
          | some gt =>
              rw [show generateLoop existing hour maxGen g (m :: ms) st cnt
                  = generateLoop existing hour maxGen g ms
                      (fileAddArticle (mkArticle hour m gt) st) (cnt + 1) by
                  simp [generateLoop, hb, ht, hg]]
              exact ih _ _ (nodup_fileAddArticle h)
          | none =>
              rw [show generateLoop existing hour maxGen g (m :: ms) st cnt
                  = generateLoop existing hour maxGen g ms st cnt by
                  simp [generateLoop, hb, ht, hg]]
              exact ih st cnt h

/-- Where a record in the post-batch state of the manual loop comes from. -/
lemma manualLoop_mem {hour : String} {g : Market → Option GenText} :
    ∀ (ms : List Market) (st : List Article) (cnt : Nat) (y : Article),
    y ∈ (manualLoop hour g ms st cnt).1 →
    y ∈ st ∨ ∃ m ∈ ms, ∃ gt, g m = some gt ∧ y = mkArticle hour m gt := by
  intro ms
  induction ms with
  | nil => intro st cnt y hy; exact Or.inl hy
  | cons m ms ih =>
      intro st cnt y hy
      cases hg : g m with
      | some gt =>
          rw [show manualLoop hour g (m :: ms) st cnt
              = manualLoop hour g ms
                  (fileAddArticle (mkArticle hour m gt) st) (cnt + 1) by
              simp [manualLoop, hg]] at hy
          rcases ih _ _ y hy with h | ⟨m', hm', h2⟩
          · rcases mem_fileAddArticle h with rfl | ⟨h3, _⟩
            · exact Or.inr ⟨m, List.mem_cons_self m ms, gt, hg, rfl⟩
            · exact Or.inl h3
          · exact Or.inr ⟨m', List.mem_cons_of_mem m hm', h2⟩
      | none =>
          rw [show manualLoop hour g (m :: ms) st cnt
              = manualLoop hour g ms st cnt by simp [manualLoop, hg]] at hy
          rcases ih st cnt y hy with h | ⟨m', hm', h2⟩
          · exact Or.inl h
          · exact Or.inr ⟨m', List.mem_cons_of_mem m hm', h2⟩

/-- The manual loop keeps ids pairwise distinct. -/
lemma manualLoop_nodup {hour : String} {g : Market → Option GenText} :
    ∀ (ms : List Market) (st : List Article) (cnt : Nat),
    (st.map (·.id)).Nodup →
    (((manualLoop hour g ms st cnt).1).map (·.id)).Nodup := by
  intro ms
  induction ms with
  | nil => intro st cnt h; exact h
  | cons m ms ih =>
      intro st cnt h
      cases hg : g m with
      | some gt =>
          rw [show manualLoop hour g (m :: ms) st cnt
              = manualLoop hour g ms
                  (fileAddArticle (mkArticle hour m gt) st) (cnt + 1) by
              simp [manualLoop, hg]]
          exact ih _ _ (nodup_fileAddArticle h)
      | none =>
          rw [show manualLoop hour g (m :: ms) st cnt
              = manualLoop hour g ms st cnt by simp [manualLoop, hg]]
          exact ih st cnt h

/-- How one resolution-loop iteration may rewrite a record: unchanged,
status flipped to resolved, or flipped with the results link set. -/
def MutatedRec (x y : Article) : Prop :=
  y = x ∨ y = resolvedOf x ∨
    ∃ rid, y = { resolvedOf x with results_article_id := some rid }

lemma MutatedRec.id_eq {x y : Article} (h : MutatedRec x y) : y.id = x.id := by
  rcases h with rfl | rfl | ⟨rid, rfl⟩ <;> rfl

lemma MutatedRec.eq_of_active {x y : Article} (h : MutatedRec x y)
    (ha : y.status = "active") : y = x := by
  rcases h with rfl | rfl | ⟨rid, rfl⟩
  · rfl
  · have hcontra : ("resolved" : String) = "active" := ha
    exact absurd hcontra (by decide)
  · have hcontra : ("resolved" : String) = "active" := ha
    exact absurd hcontra (by decide)

lemma MutatedRec.fields_eq {x y : Article} (h : MutatedRec x y) :
    y.id = x.id ∧ y.article_type = x.article_type
      ∧ y.market_ticker = x.market_ticker := by
  rcases h with rfl | rfl | ⟨rid, rfl⟩ <;> exact ⟨rfl, rfl, rfl⟩

lemma MutatedRec.refl (x : Article) : MutatedRec x x := Or.inl rfl

/-- Effect of one resolution-loop iteration: exactly one record — a
mutation of the input record — is appended to the processed list, and the
articles file is either untouched or receives one generated results
article (type "results", status "resolved"). -/
lemma resolutionStep_spec (now : ℚ) (hour : String)
    (gm : String → Option Market) (gr : Market → Article → Option GenText)
    (mr : Nat) (acc : ResolutionAcc) (article : Article) :
    ∃ y, (resolutionStep now hour gm gr mr acc article).processed
        = acc.processed ++ [y]
      ∧ MutatedRec article y
      ∧ ((resolutionStep now hour gm gr mr acc article).fileState
            = acc.fileState
        ∨ ∃ ra, ra.article_type = "results" ∧ ra.status = "resolved"
            ∧ (resolutionStep now hour gm gr mr acc article).fileState
                = fileAddArticle ra acc.fileState) := by
  unfold resolutionStep MutatedRec
  repeat' split
  all_goals
    first
      | exact ⟨article, rfl, Or.inl rfl, Or.inl rfl⟩
      | exact ⟨_, rfl, Or.inr (Or.inl rfl), Or.inl rfl⟩
      | exact ⟨_, rfl, Or.inr (Or.inr ⟨_, rfl⟩), Or.inr ⟨_, rfl, rfl, rfl⟩⟩

/-- The processed list of the resolution loop carries exactly the input
ids, in order. -/
lemma resolutionFold_processed_ids (now : ℚ) (hour : String)
    (gm : String → Option Market) (gr : Market → Article → Option GenText)
    (mr : Nat) :
    ∀ (articles : List Article) (acc : ResolutionAcc),
    (((articles.foldl (resolutionStep now hour gm gr mr) acc).processed).map
        (·.id))
      = acc.processed.map (·.id) ++ articles.map (·.id) := by
  intro articles
  induction articles with
  | nil => intro acc; simp
  | cons a as ih =>
      intro acc
      rw [List.foldl_cons, ih]
      obtain ⟨y, hproc, hmut, _⟩ := resolutionStep_spec now hour gm gr mr acc a
      rw [hproc]
      simp [hmut.id_eq]

/-- Every record in the processed list is a mutation of an input record
(or was already in the accumulator). -/
lemma resolutionFold_processed_mem (now : ℚ) (hour : String)
    (gm : String → Option Market) (gr : Market → Article → Option GenText)
    (mr : Nat) :
    ∀ (articles : List Article) (acc : ResolutionAcc) (y : Article),
    y ∈ (articles.foldl (resolutionStep now hour gm gr mr) acc).processed →
    y ∈ acc.processed ∨ ∃ x ∈ articles, MutatedRec x y := by
  intro articles
  induction articles with
  | nil => intro acc y hy; exact Or.inl hy
  | cons a as ih =>
      intro acc y hy
      rw [List.foldl_cons] at hy
      rcases ih _ y hy with hmem | ⟨x, hx, hm⟩
      · obtain ⟨z, hproc, hmut, _⟩ := resolutionStep_spec now hour gm gr mr acc a
        rw [hproc] at hmem
        rcases List.mem_append.mp hmem with h | h
        · exact Or.inl h
        · rcases List.mem_singleton.mp h with rfl
          exact Or.inr ⟨a, List.mem_cons_self a as, hmut⟩
      · exact Or.inr ⟨x, List.mem_cons_of_mem a hx, hm⟩

/-- Every record in the mid-loop articles file is an initial record or a
generated results article. -/
lemma resolutionFold_fileState_mem (now : ℚ) (hour : String)
    (gm : String → Option Market) (gr : Market → Article → Option GenText)
    (mr : Nat) :
    ∀ (articles : List Article) (acc : ResolutionAcc) (z : Article),
    z ∈ (articles.foldl (resolutionStep now hour gm gr mr) acc).fileState →
    z ∈ acc.fileState ∨ (z.article_type = "results" ∧ z.status = "resolved") := by
  intro articles
  induction articles with
  | nil => intro acc z hz; exact Or.inl hz
  | cons a as ih =>
      intro acc z hz
      rw [List.foldl_cons] at hz
      rcases ih _ z hz with hmem | hres
      · obtain ⟨y, _, _, hfs⟩ := resolutionStep_spec now hour gm gr mr acc a
        rcases hfs with heq | ⟨ra, hty, hst, heq⟩
        · rw [heq] at hmem; exact Or.inl hmem
        · rw [heq] at hmem
          rcases mem_fileAddArticle hmem with rfl | ⟨h3, _⟩
          · exact Or.inr ⟨hty, hst⟩
          · exact Or.inl h3
      · exact Or.inr hres

/-- The mid-loop articles file keeps ids pairwise distinct. -/
lemma resolutionFold_fileState_nodup (now : ℚ) (hour : String)
    (gm : String → Option Market) (gr : Market → Article → Option GenText)
    (mr : Nat) :
    ∀ (articles : List Article) (acc : ResolutionAcc),
    ((acc.fileState).map (·.id)).Nodup →
    (((articles.foldl (resolutionStep now hour gm gr mr) acc).fileState).map
      (·.id)).Nodup := by
  intro articles
  induction articles with
  | nil => intro acc h; exact h
  | cons a as ih =>
      intro acc h
      rw [List.foldl_cons]
      apply ih
      obtain ⟨y, _, _, hfs⟩ := resolutionStep_spec now hour gm gr mr acc a
      rcases hfs with heq | ⟨ra, _, _, heq⟩
      · rw [heq]; exact h
      · rw [heq]; exact nodup_fileAddArticle h

/-- The id field of a generated analysis article. -/
lemma mkArticle_id (hour : String) (m : Market) (g : GenText) :
    (mkArticle hour m g).id = generateArticleId m.ticker hour := by
  simp only [mkArticle]

/-- An analysis record's ticker is in the dedup exclusion set. -/
lemma mem_existingAnalysisTickers {st : List Article} {x : Article}
    (hx : x ∈ st) (hty : x.article_type = "analysis") :
    x.market_ticker ∈ existingAnalysisTickers st := by
  unfold existingAnalysisTickers
  exact List.mem_map.mpr ⟨x, List.mem_filter.mpr ⟨hx, by simp [hty]⟩, rfl⟩

/-- A scheduled generation cycle preserves the state invariant: candidates
whose ticker already carries an analysis item are excluded, and two
generated articles for the same ticker share the hour-bucket id, so the
id-dedup of the upsert keeps at most one. -/
lemma generateArticlesJob_stateInv {hour : String} {maxGen : Nat}
    {g : Market → Option GenText} {ms : List Market} {st : List Article}
    (h : StateInv st) : StateInv (generateArticlesJob hour maxGen g ms st).1 := by
  by_cases hms : ms = []
  · simpa [generateArticlesJob, hms] using h
  · simp only [generateArticlesJob, if_neg hms]
    refine ⟨generateLoop_nodup ms st 0 h.1, ?_⟩
    intro t x y hx hy hxA hyA
    have hnd := @generateLoop_nodup (existingAnalysisTickers st) hour maxGen g
      ms st 0 h.1
    rcases generateLoop_mem ms st 0 x hx with hxs | ⟨m1, hm1, ht1, gt1, hg1, rfl⟩
    · rcases generateLoop_mem ms st 0 y hy with hys | ⟨m2, hm2, ht2, gt2, hg2, rfl⟩
      · exact h.2 t x y hxs hys hxA hyA
      · exfalso
        have hmem : x.market_ticker ∈ existingAnalysisTickers st :=
          mem_existingAnalysisTickers hxs hxA.1
        have hx_t : x.market_ticker = t := hxA.2.2
        have hy_t : m2.ticker = t := hyA.2.2
        rw [hx_t, ← hy_t] at hmem
        exact ht2 hmem
    · rcases generateLoop_mem ms st 0 y hy with hys | ⟨m2, hm2, ht2, gt2, hg2, rfl⟩
      · exfalso
        have hmem : y.market_ticker ∈ existingAnalysisTickers st :=
          mem_existingAnalysisTickers hys hyA.1
        have hy_t : y.market_ticker = t := hyA.2.2
        have hx_t : m1.ticker = t := hxA.2.2
        rw [hy_t, ← hx_t] at hmem
        exact ht1 hmem
      · apply eq_of_mem_of_nodup_ids hnd hx hy
        have h1 : m1.ticker = t := hxA.2.2
        have h2 : m2.ticker = t := hyA.2.2
        rw [mkArticle_id, mkArticle_id, h1, h2]

/-- Both possible final states of a resolution cycle preserve the state
invariant: the saved mutated list only flips statuses toward resolved, and
the mid-loop file only gained results-type records. -/
lemma resolutionFold_stateInv {now : ℚ} {hour : String}
    {gm : String → Option Market} {gr : Market → Article → Option GenText}
    {mr : Nat} {st : List Article} (h : StateInv st) :
    StateInv ((st.foldl (resolutionStep now hour gm gr mr)
        ⟨[], st, false, 0, []⟩).processed)
    ∧ StateInv ((st.foldl (resolutionStep now hour gm gr mr)
        ⟨[], st, false, 0, []⟩).fileState) := by
  constructor
  · constructor
    · rw [resolutionFold_processed_ids]
      simpa using h.1
    · intro t x y hx hy hxA hyA
      rcases resolutionFold_processed_mem now hour gm gr mr st _ x hx with
        h0 | ⟨x0, hx0, hmx⟩
      · exact absurd h0 (List.not_mem_nil x)
      · rcases resolutionFold_processed_mem now hour gm gr mr st _ y hy with
          h0 | ⟨y0, hy0, hmy⟩
        · exact absurd h0 (List.not_mem_nil y)
        · have hex : x = x0 := hmx.eq_of_active hxA.2.1
          have hey : y = y0 := hmy.eq_of_active hyA.2.1
          subst hex; subst hey
          exact h.2 t x y hx0 hy0 hxA hyA
  · constructor
    · exact resolutionFold_fileState_nodup now hour gm gr mr st _ h.1
    · intro t x y hx hy hxA hyA
      rcases resolutionFold_fileState_mem now hour gm gr mr st _ x hx with
        h0 | ⟨hty, _⟩
      · rcases resolutionFold_fileState_mem now hour gm gr mr st _ y hy with
          h1 | ⟨hty2, _⟩
        · exact h.2 t x y h0 h1 hxA hyA
        · exact absurd (hyA.1.symm.trans hty2) (by decide)
      · exact absurd (hxA.1.symm.trans hty) (by decide)

/-- A resolution cycle preserves the state invariant. -/
lemma checkResolutionsJob_stateInv {now : ℚ} {hour : String}
    {gm : String → Option Market} {gr : Market → Article → Option GenText}
    {mr : Nat} {st : List Article} (h : StateInv st) :
    StateInv (checkResolutionsJob now hour gm gr mr st).1 := by
  by_cases hst : st = []
  · simpa [checkResolutionsJob, hst] using h
  · simp only [checkResolutionsJob, if_neg hst]
    by_cases hupd : (st.foldl (resolutionStep now hour gm gr mr)
        ⟨[], st, false, 0, []⟩).updated
    · rw [if_pos hupd]
      exact (resolutionFold_stateInv h).1
    · rw [if_neg hupd]
      exact (resolutionFold_stateInv h).2

/-- Every scheduled-plus-resolution operation preserves the state
invariant. -/
lemma applyOp_stateInv {st : List Article} {op : Op} (h : StateInv st)
    (hman : ¬ op.isManual) (hups : ¬ op.isUpsert) :
    StateInv (applyOp st op) := by
  cases op with
  | genCycle hour maxGen g ms => exact generateArticlesJob_stateInv h
  | manual hour maxGen g ms => exact absurd trivial hman
  | resolveCycle now hour gm gr mr => exact checkResolutionsJob_stateInv h
  | upsert a => exact absurd trivial hups

/-- The state invariant holds along every manual-free, upsert-free trace. -/
lemma runOps_stateInv :
    ∀ (ops : List Op) (st : List Article), StateInv st →
    (∀ op ∈ ops, ¬ op.isManual ∧ ¬ op.isUpsert) →
    StateInv (runOps st ops) := by
  intro ops
  induction ops with
  | nil => intro st h _; exact h
  | cons op ops ih =>
      intro st h hops
      have h1 := hops op (List.mem_cons_self op ops)
      exact ih (applyOp st op) (applyOp_stateInv h h1.1 h1.2)
        (fun op' h' => hops op' (List.mem_cons_of_mem op h'))

/-! ### Claim C3: at most one active analysis item per ticker -/

/-- The always-succeeding generation outcome of the C3/C4 scenarios. -/
def c3Gen : Market → Option GenText := fun _ => some gA

/-- C3, counterexample: a scheduled cycle in hour bucket 2025010100
stores an active analysis item for FOO; a manual trigger in the next hour
bucket — which performs no dedup check and yields a different id — stores
a second one.  The reachable state after the two operations holds two
active analysis items for the ticker FOO. -/
theorem claim3_counterexample :
    countActiveAnalysis "FOO"
      (runOps [] [Op.genCycle "2025010100" 3 c3Gen [genFOO],
        Op.manual "2025010101" 3 c3Gen [genFOO]]) = 2 := by decide

/-- C3, amended: along every trace of scheduled generation cycles and
resolution cycles (manual triggers excluded — a manual trigger bypasses
the dedup check and can duplicate), every reachable state holds at most
one active analysis item per ticker. -/
theorem claim3_amended :
    ∀ (ops : List Op), (∀ op ∈ ops, ¬ op.isManual ∧ ¬ op.isUpsert) →
    ∀ (t : String), countActiveAnalysis t (runOps [] ops) ≤ 1 := by
  intro ops hops t
  have hinv : StateInv (runOps [] ops) :=
    runOps_stateInv ops []
      ⟨by simp, fun t x y hx _ _ _ => absurd hx (List.not_mem_nil x)⟩ hops
  exact countActiveAnalysis_le_one hinv t

/-- C3, witness: the amended theorem applied to a concrete two-operation
trace (one scheduled cycle, one resolution cycle). -/
theorem claim3_witness :
    countActiveAnalysis "FOO"
      (runOps [] [Op.genCycle "2025010100" 3 c3Gen [genFOO],
        Op.resolveCycle 1 "2025010100" (fun _ => none) (fun _ _ => none) 2])
      ≤ 1 :=
  claim3_amended _
    (by
      intro op hop
      rcases List.mem_cons.mp hop with rfl | hop2
      · exact ⟨fun hh => hh, fun hh => hh⟩
      · rcases List.mem_singleton.mp hop2 with rfl
        exact ⟨fun hh => hh, fun hh => hh⟩)
    "FOO"

/-! ### Claim C4: resolved is terminal -/

/-- Whether an operation can never (re-)introduce the given id: its
generated ids — derived from (ticker, hour bucket) — all differ from it,
and a raw upsert under it is not active. -/
def opAvoidsId (id0 : String) : Op → Prop
  | .genCycle hour _ _ markets =>
      ∀ m ∈ markets, generateArticleId m.ticker hour ≠ id0
  | .manual hour _ _ markets =>
      ∀ m ∈ markets, generateArticleId m.ticker hour ≠ id0
  | .resolveCycle _ _ _ _ _ => True
  | .upsert a => a.id = id0 → a.status ≠ "active"

/-- No record under the given id is active. -/
def NoActive (id0 : String) (l : List Article) : Prop :=
  ∀ a ∈ l, a.id = id0 → a.status ≠ "active"

/-- Operations that avoid an id keep it inactive. -/
lemma applyOp_noActive {id0 : String} {st : List Article} {op : Op}
    (h : NoActive id0 st) (hav : opAvoidsId id0 op) :
    NoActive id0 (applyOp st op) := by
  cases op with
  | genCycle hour maxGen g ms =>
      intro a ha hid
      by_cases hms : ms = []
      · simp only [applyOp, generateArticlesJob, if_pos hms] at ha
        exact h a ha hid
      · simp only [applyOp, generateArticlesJob, if_neg hms] at ha
        rcases generateLoop_mem ms st 0 a ha with hmem | ⟨m, hm, _, gt, _, rfl⟩
        · exact h a hmem hid
        · rw [mkArticle_id] at hid
          exact absurd hid (hav m hm)
  | manual hour maxGen g ms =>
      intro a ha hid
      by_cases hms : ms = []
      · simp only [applyOp, manualRefresh, if_pos hms] at ha
        exact h a ha hid
      · simp only [applyOp, manualRefresh, if_neg hms] at ha
        rcases manualLoop_mem (ms.take maxGen) st 0 a ha with
          hmem | ⟨m, hm, gt, _, rfl⟩
        · exact h a hmem hid
        · rw [mkArticle_id] at hid
          exact absurd hid (hav m (List.take_subset maxGen ms hm))
  | resolveCycle now hour gm gr mr =>
      intro a ha hid
      by_cases hst : st = []
      · simp only [applyOp, checkResolutionsJob, if_pos hst] at ha
        exact h a ha hid
      · simp only [applyOp, checkResolutionsJob, if_neg hst] at ha
        by_cases hupd : (st.foldl (resolutionStep now hour gm gr mr)
            ⟨[], st, false, 0, []⟩).updated
        · rw [if_pos hupd] at ha
          rcases resolutionFold_processed_mem now hour gm gr mr st _ a ha with
            h0 | ⟨x, hx, hmut⟩
          · exact absurd h0 (List.not_mem_nil a)
          · intro hact
            have hax : a = x := hmut.eq_of_active hact
            subst hax
            exact h a hx hid hact
        · rw [if_neg hupd] at ha
          rcases resolutionFold_fileState_mem now hour gm gr mr st _ a ha with
            h0 | ⟨_, hstat⟩
          · exact h a h0 hid
          · intro hact
            exact absurd (hstat.symm.trans hact) (by decide)
  | upsert a0 =>
      intro a ha hid
      rcases mem_fileAddArticle ha with rfl | ⟨hmem, _⟩
      · exact hav hid
      · exact h a hmem hid

/-- Id-avoiding traces keep an id inactive. -/
lemma runOps_noActive {id0 : String} :
    ∀ (ops : List Op) (st : List Article), NoActive id0 st →
    (∀ op ∈ ops, opAvoidsId id0 op) → NoActive id0 (runOps st ops) := by
  intro ops
  induction ops with
  | nil => intro st h _; exact h
  | cons op ops ih =>
      intro st h hops
      exact ih (applyOp st op)
        (applyOp_noActive h (hops op (List.mem_cons_self op ops)))
        (fun op' h' => hops op' (List.mem_cons_of_mem op h'))

/-- C4, counterexample: the analysis item generated for FOO in hour
bucket 2025010100 is resolved by a resolution cycle; a manual trigger in
the same hour bucket then regenerates the same (ticker, hour) id with
status active — the record under that id moves back from resolved to
active. -/
theorem claim4_counterexample :
    ((getArticleById (generateArticleId "FOO" "2025010100")
        (runOps [] [Op.genCycle "2025010100" 3 c3Gen [genFOO],
          Op.resolveCycle 1 "2025010100" (fun _ => none) (fun _ _ => none) 2])).map
        (·.status)) = some "resolved"
    ∧ ((getArticleById (generateArticleId "FOO" "2025010100")
        (runOps [] [Op.genCycle "2025010100" 3 c3Gen [genFOO],
          Op.resolveCycle 1 "2025010100" (fun _ => none) (fun _ _ => none) 2,
          Op.manual "2025010100" 3 c3Gen [genFOO]])).map (·.status))
        = some "active" := by
  refine ⟨by decide, by decide⟩

/-- C4, amended: once every record under an id is resolved, it stays
non-active along any continuation whose generation steps never reproduce
that id (the id scheme makes that possible only for the same ticker in
the same UTC hour bucket) and whose raw upserts under it are not active;
resolution cycles themselves never revert a resolved record. -/
theorem claim4_amended :
    ∀ (st : List Article) (ops : List Op) (id0 : String),
    (∀ a ∈ st, a.id = id0 → a.status = "resolved") →
    (∀ op ∈ ops, opAvoidsId id0 op) →
    ∀ a ∈ runOps st ops, a.id = id0 → a.status ≠ "active" := by
  intro st ops id0 hres hops
  have hbase : NoActive id0 st := by
    intro a ha hid hact
    exact absurd ((hres a ha hid).symm.trans hact) (by decide)
  exact runOps_noActive ops st hbase hops

/-- C4, witness: the amended theorem applied to a resolved one-record
state and one concrete resolution cycle. -/
theorem claim4_witness :
    c2ResolvedUnlinked.status ≠ "active" :=
  claim4_amended [c2ResolvedUnlinked]
    [Op.resolveCycle 1 "2025010101" c2GetMarket c2GenOk 2] "origid"
    (by decide)
    (by
      intro op hop
      rcases List.mem_singleton.mp hop with rfl
      trivial)
    c2ResolvedUnlinked (by decide) rfl

end KalshiNews
